import Mathlib

/-
A verification development for the application registry and reconciliation
engine of `src/core/application.ts` (just-start-server vscode extension).

The registry code is shallowly embedded: the persisted configuration records,
the in-memory handle cache, `createApplication`, `loadFromConfigurations`
(with its prune / select / initialize / write-back / upsert pipeline),
`setAppsToContainer`, and `ApplicationError.toString` are translated into pure
Lean functions over an explicit `State`.  External collaborators whose code
lives outside `src/core/application.ts` (the concrete application kinds, the
configuration accessor, the message table) are modelled from the design
specification's contracts and are clearly marked below.  Asynchronous `await`
sequences are interpreted sequentially, in program order, with every awaited
call running to completion before the next statement.
-/

namespace JustStartServer

/-- A key/value configuration property with a `changeable` flag
    (`ConfigurationProperty` of the data model). -/
structure ConfigProperty where
  key : String
  value : String
  changeable : Bool
deriving DecidableEq, Repr

/-- A persisted application configuration record (`ConfigApplication`):
    id, application type tag, application path and ordered property list. -/
structure ConfigApplication where
  id : String
  type : String
  appPath : String
  properties : List ConfigProperty
deriving DecidableEq, Repr

/-- The error value raised by the registry (`ApplicationError`,
    application.ts lines 74-102): a message string and an optional code. -/
structure ApplicationError where
  msg : String
  code : Option String := none
deriving DecidableEq, Repr

def ApplicationError.FatalFailure : String := "E_AP_FAIL"

def ApplicationError.NotReady : String := "E_AP_NTRY"

def ApplicationError.NotFound : String := "E_AP_NTFN"

def ApplicationError.NotFoundTargetDeploy : String := "E_AP_NFTD"

def ApplicationError.NotMatchConfDeploy : String := "E_AP_NMSC"

def ApplicationError.NotFoundWorkspace : String := "E_AP_NFWS"

def ApplicationError.NoValidAppType : String := "E_AP_NVAT"

def ApplicationError.NotAvailablePort : String := "E_AP_NAVP"

def ApplicationError.InaccessibleResources : String := "E_AP_IACR"

def ApplicationError.InvalidInternalResource : String := "E_AP_IVIR"

/-- Modelled from the spec: an in-memory application handle
    (`ApplicationHandle`, an `IRunnable & ConfigurationAccessor`).  The
    concrete kind classes (Tomcat, SpringBoot) are outside
    `src/core/application.ts`; per the specification a handle carries a stable
    id, its kind tag, the workspace location it was bound to, and a `config`
    record.  `initCount` records how many times `init` was invoked on this
    handle, so that duplicate initialization is observable. -/
structure App where
  id : String
  type : String
  uri : String
  config : ConfigApplication
  initCount : Nat
deriving DecidableEq, Repr

/-- Modelled from the spec: the behaviour of external collaborators.
    `template` is the kind-default ("pure") property set a fresh handle of a
    kind reports via `getProperties`; `initResult` is the outcome of a kind's
    `init` on a given handle (`none` = success, `some e` = failure raising
    `e`); `now` is the current time in milliseconds used for generated ids. -/
structure Env where
  template : String → List ConfigProperty
  initResult : App → Option ApplicationError
  now : Nat

instance {ε α : Type} [DecidableEq ε] [DecidableEq α] : DecidableEq (Except ε α) :=
  fun a b =>
    match a, b with
    | .error e, .error f =>
      if h : e = f then .isTrue (by rw [h]) else .isFalse (by intro hh; cases hh; exact h rfl)
    | .ok x, .ok y =>
      if h : x = y then .isTrue (by rw [h]) else .isFalse (by intro hh; cases hh; exact h rfl)
    | .error _, .ok _ => .isFalse (by intro hh; cases hh)
    | .ok _, .error _ => .isFalse (by intro hh; cases hh)

/-- The registry state (`container` namespace): the workspace uri, the ordered
    in-memory cache of handles, and the persisted configuration file (an
    `Except.error` value models an unreadable file).  The remaining fields are
    observable traces of calls made to the configuration accessor and to the
    kinds: ids passed to `detachConfigApplication`, ids of handles on which
    `init` was invoked, and the record lists passed to
    `writeConfigApplication`. -/
structure State where
  uri : Option String
  cache : List App
  file : Except ApplicationError (List ConfigApplication)
  detached : List String
  initCalls : List String
  writes : List (List ConfigApplication)
deriving DecidableEq, Repr

/-- `findClassModule` (lines 19-25) resolves a type tag to a concrete class
    and raises `NoValidAppType` otherwise; the registry only ever observes
    whether a class exists for the tag. -/
def validType (t : String) : Bool :=
  t == "TOMCAT" || t == "SPRING_BOOT"

/-- Modelled from the spec: a freshly constructed handle of a kind, bound to
    an id and the workspace uri, reporting the kind-default template as its
    initial property set and not yet initialized. -/
def newApp (env : Env) (type id uri : String) : App :=
  { id := id
    type := type
    uri := uri
    config := { id := id, type := type, appPath := "", properties := env.template type }
    initCount := 0 }

/-- `container.createApplication` (lines 120-125): requires the workspace uri
    (else `NotFoundWorkspace`), computes `id || "App" + Date.now()` — so an
    absent or empty id is replaced by a generated one (JS falsiness) —
    resolves the class via `findClassModule` (else `NoValidAppType`) and
    returns a new, uncached handle. -/
def createApplication (env : Env) (uri : Option String) (type : String)
    (id : Option String) : Except ApplicationError App :=
  match uri with
  | none => .error { msg := ApplicationError.NotFoundWorkspace }
  | some u =>
    let rid := match id with
      | none => "App" ++ toString env.now
      | some s => if s == "" then "App" ++ toString env.now else s
    if validType type then .ok (newApp env type rid u)
    else .error { msg := ApplicationError.NoValidAppType }

/-- The property merge of `_initializeApplication` (line 160): for each
    property `p` of the pure template, if the persisted list has a property
    with the same key marked changeable, keep the first persisted property
    with that key, otherwise keep `p`. -/
def mergeProps (pure prev : List ConfigProperty) : List ConfigProperty :=
  pure.map fun p =>
    if prev.any fun pv => pv.key == p.key && pv.changeable then
      ((prev.find? fun pv => pv.key == p.key).getD p)
    else p

/-- The handle state right before `init` in `_initializeApplication` (lines
    156-160): the fresh handle `app0` after `setConfig(config)` — whose pure
    template was captured first — with the merged property list assigned and
    the pending `init` invocation counted. -/
def mergedApp (_env : Env) (c : ConfigApplication) (app0 : App) : App :=
  { app0 with
      config := { c with properties := mergeProps app0.config.properties c.properties }
      initCount := app0.initCount + 1 }

/-- `_initializeApplication` (lines 154-164): construct the handle via
    `createApplication` (the `AppTypes[config.type]` reverse lookup maps
    unknown tags to `undefined`, which `findClassModule` rejects with
    `NoValidAppType`, so it behaves as passing `config.type` directly),
    capture the pure template, assign the persisted config (`setConfig`),
    merge the properties, then invoke `init`.  Returns the ids on which
    `init` was invoked together with the outcome. -/
def initializeApplication (env : Env) (uri : Option String)
    (c : ConfigApplication) : List String × Except ApplicationError App :=
  match createApplication env uri c.type (some c.id) with
  | .error e => ([], .error e)
  | .ok app0 =>
    ([(mergedApp env c app0).id],
      match env.initResult (mergedApp env c app0) with
      | none => .ok (mergedApp env c app0)
      | some e => .error e)

/-- The for-loop of `loadFromConfigurations` (lines 143-147): initialize the
    selected records in order; a failure aborts the loop and is propagated.
    Returns the successfully initialized handles, the trace of init
    invocations (including a failed one), and the propagated error, if any. -/
def initLoop (env : Env) (uri : Option String) :
    List ConfigApplication → List App × List String × Option ApplicationError
  | [] => ([], [], none)
  | c :: rest =>
    let p := initializeApplication env uri c
    match p.2 with
    | .error e => ([], p.1, some e)
    | .ok app =>
      let r := initLoop env uri rest
      (app :: r.1, p.1 ++ r.2.1, r.2.2)

/-- Replace the config of the first cache entry carrying the given id
    (the find-then-`setConfig` of `setAppsToContainer`, lines 169-171). -/
def updateFirst (cfg : ConfigApplication) (id : String) : List App → List App
  | [] => []
  | a :: rest =>
    if a.id == id then { a with config := cfg } :: rest
    else a :: updateFirst cfg id rest

/-- One step of `setAppsToContainer`: update the existing entry's config when
    the id is already cached, otherwise append the handle. -/
def upsert (cache : List App) (app : App) : List App :=
  if cache.any fun a => a.id == app.id then updateFirst app.config app.id cache
  else cache ++ [app]

/-- `container.setAppsToContainer` (lines 166-178). -/
def setAppsToContainer (apps cache : List App) : List App :=
  apps.foldl upsert cache

/-- The ids of the records pruned by lines 131-138: those with an empty
    (falsy) `appPath`; `detachConfigApplication` is requested for each. -/
def pruneIds (records : List ConfigApplication) : List String :=
  (records.filter fun a => a.appPath == "").map (·.id)

/-- The in-memory records surviving the prune pass (the slots not set to
    `undefined`, line 140): those with a non-empty `appPath`. -/
def keptRecords (records : List ConfigApplication) : List ConfigApplication :=
  records.filter fun a => a.appPath != ""

/-- The records selected for reconstruction (line 141): surviving records
    whose id is not already in the cache. -/
def selectRecords (cache : List App) (records : List ConfigApplication) :
    List ConfigApplication :=
  (keptRecords records).filter fun a => !(cache.any fun l => l.id == a.id)

/-- The persisted store after the prune pass: `detachConfigApplication`
    removes the records carrying a detached id. -/
def fileAfterPrune (records : List ConfigApplication) : List ConfigApplication :=
  records.filter fun a => !((pruneIds records).contains a.id)

/-- The tail of `loadFromConfigurations` after the init loop (lines 149-151):
    on a loop failure the error propagates with the cache as it was after the
    optional clear and with the store reflecting only the prune-pass
    detaches; on success the new handles' configs are written back and the
    handles are upserted into the cache. -/
def commitLoad (st : State) (records : List ConfigApplication) (base : List App)
    (apps : List App) (tr : List String) :
    Option ApplicationError → State × Option ApplicationError
  | some e =>
    ({ st with
        cache := base
        file := .ok (fileAfterPrune records)
        detached := st.detached ++ pruneIds records
        initCalls := st.initCalls ++ tr }, some e)
  | none =>
    ({ st with
        cache := setAppsToContainer apps base
        file := .ok (apps.map (·.config))
        detached := st.detached ++ pruneIds records
        initCalls := st.initCalls ++ tr
        writes := st.writes ++ [apps.map (·.config)] }, none)

/-- `container.loadFromConfigurations` (lines 127-152), with the awaited
    callbacks of the prune pass run to completion in program order
    (sequential interpretation of the async `forEach`).  Reads the file
    (propagating a read failure with the state untouched), clears the cache
    in `exactly` mode, prunes records with empty `appPath` (detaching them
    from the store), selects the records whose id is not cached, initializes
    them in order (a failure aborts before write-back and commit), writes the
    new handles' configs back, and upserts them into the cache. -/
def loadFromConfigurations (env : Env) (exactly : Bool) (st : State) :
    State × Option ApplicationError :=
  match st.file with
  | .error e => (st, some e)
  | .ok records =>
    let base := if exactly then [] else st.cache
    let res := initLoop env st.uri (selectRecords base records)
    commitLoad st records base res.1 res.2.1 res.2.2

/-- `container.reset` (lines 116-118). -/
def reset (st : State) : State := { st with cache := [] }

/-- `container.initialize` (lines 108-110): record the workspace uri. -/
def initializeUri (u : String) (st : State) : State := { st with uri := some u }

/-- `container.getApplication` (lines 180-182). -/
def getApplication (id : String) (st : State) : Option App :=
  st.cache.find? fun a => a.id == id

/-- `container.getApplications` (lines 184-186). -/
def getApplications (st : State) : List App := st.cache

/-- The registry operations, for stating invariants over arbitrary call
    sequences. -/
inductive Op where
  | create (type : String) (id : Option String)
  | load (exactly : Bool)
  | setApps (apps : List App)
  | reset
  | getApp (id : String)
  | getApps
deriving Repr

/-- The state effect of one registry operation: `createApplication`
    constructs a handle but never touches the cache, and the two getters only
    read. -/
def step (env : Env) (st : State) : Op → State
  | .create _ _ => st
  | .load e => (loadFromConfigurations env e st).1
  | .setApps apps => { st with cache := setAppsToContainer apps st.cache }
  | .reset => reset st
  | .getApp _ => st
  | .getApps => st

/-- Modelled from the spec: `existsCode` of `src/messages` — whether a code is
    registered in the message table (given here as an association list). -/
def existsCode (table : List (String × String)) (c : String) : Bool :=
  (table.find? fun p => p.1 == c).isSome

/-- Modelled from the spec: `getMessage` of `src/messages` — the registered
    message of a code. -/
def getMessage (table : List (String × String)) (c : String) : String :=
  (((table.find? fun p => p.1 == c).map (·.2)).getD "")

/-- `ApplicationError.toString` (lines 82-90): JS truthiness makes an absent
    or empty `code` fall through to the msg-based branches, and the detail
    suffix appears only for a non-empty `msg`. -/
def renderError (table : List (String × String)) (e : ApplicationError) : String :=
  match e.code with
  | some c =>
    if c != "" && existsCode table c then
      getMessage table c ++ (if e.msg != "" then " (" ++ e.msg ++ ")" else "")
    else if existsCode table e.msg then getMessage table e.msg
    else e.msg
  | none =>
    if existsCode table e.msg then getMessage table e.msg
    else e.msg

/-- The rendering rule exactly as the specification words it: if the code is
    present and registered, the code's message with the msg suffixed in
    parentheses when non-empty; otherwise the msg's registered message if the
    msg is itself a registered code; otherwise the msg verbatim. -/
def specRender (table : List (String × String)) (e : ApplicationError) : String :=
  match e.code with
  | some c =>
    if existsCode table c then
      getMessage table c ++ (if e.msg != "" then " (" ++ e.msg ++ ")" else "")
    else if existsCode table e.msg then getMessage table e.msg
    else e.msg
  | none =>
    if existsCode table e.msg then getMessage table e.msg
    else e.msg

/-- Concrete fixture: the pure template of the Tomcat kind used by witnesses. -/
def tomcatTemplate : List ConfigProperty := [⟨"port", "8080", true⟩]

/-- Concrete fixture environment: a Tomcat template, always-succeeding init,
    time 0. -/
def envW : Env :=
  { template := fun t => if t == "TOMCAT" then tomcatTemplate else []
    initResult := fun _ => none
    now := 0 }

/-- Concrete fixture environment whose init fails exactly on the handle with
    id A1. -/
def envFail : Env :=
  { template := fun t => if t == "TOMCAT" then tomcatTemplate else []
    initResult := fun a => if a.id == "A1" then some { msg := "init failed" } else none
    now := 0 }

/-- Concrete fixture state: empty cache, two valid persisted records. -/
def stTwo : State :=
  { uri := some "ws"
    cache := []
    file := .ok [⟨"A1", "TOMCAT", "/a", []⟩, ⟨"A2", "TOMCAT", "/b", []⟩]
    detached := []
    initCalls := []
    writes := [] }

/-- Two handles agreeing on everything except possibly the `config` field. -/
def sameExceptConfig (a b : App) : Prop :=
  a.id = b.id ∧ a.type = b.type ∧ a.uri = b.uri ∧ a.initCount = b.initCount

instance (a b : App) : Decidable (sameExceptConfig a b) := by
  unfold sameExceptConfig; infer_instance

lemma sameExceptConfig_refl (a : App) : sameExceptConfig a a :=
  ⟨rfl, rfl, rfl, rfl⟩

lemma sameExceptConfig_trans {a b c : App}
    (h1 : sameExceptConfig a b) (h2 : sameExceptConfig b c) : sameExceptConfig a c :=
  ⟨h1.1.trans h2.1, h1.2.1.trans h2.2.1, h1.2.2.1.trans h2.2.2.1, h1.2.2.2.trans h2.2.2.2⟩

/-- The id actually given to a constructed handle: `id || "App" + Date.now()`. -/
def resolvedId (env : Env) : Option String → String
  | none => "App" ++ toString env.now
  | some s => if s == "" then "App" ++ toString env.now else s

lemma createApplication_ok {env : Env} {uri : Option String} {t : String}
    {i : Option String} {a : App} (h : createApplication env uri t i = .ok a) :
    ∃ u, uri = some u ∧ validType t = true ∧ a = newApp env t (resolvedId env i) u := by
  unfold createApplication at h
  cases uri with
  | none => exact absurd h (by simp)
  | some u =>
    by_cases hv : validType t
    · refine ⟨u, rfl, hv, ?_⟩
      simp only [hv, if_true] at h
      cases i <;> simpa [resolvedId] using h.symm
    · simp [hv] at h

lemma initializeApplication_ok {env : Env} {uri : Option String}
    {c : ConfigApplication} {tr : List String} {app : App}
    (h : initializeApplication env uri c = (tr, .ok app)) :
    app.config.id = c.id ∧ app.config.type = c.type ∧
    app.config.appPath = c.appPath ∧
    app.config.properties = mergeProps (env.template c.type) c.properties ∧
    app.initCount = 1 ∧ app.type = c.type ∧
    app.id = resolvedId env (some c.id) ∧ tr = [app.id] := by
  unfold initializeApplication at h
  cases hc : createApplication env uri c.type (some c.id) with
  | error e =>
    rw [hc] at h
    simp at h
  | ok app0 =>
    rw [hc] at h
    dsimp only at h
    obtain ⟨u, _, _, ha0⟩ := createApplication_ok hc
    cases hr : env.initResult (mergedApp env c app0) with
    | some e =>
      rw [hr] at h
      simp at h
    | none =>
      rw [hr] at h
      simp only [Prod.mk.injEq] at h
      obtain ⟨htr, happ⟩ := h
      have happ' : app = mergedApp env c app0 := by
        cases happ; rfl
      subst happ'
      subst ha0
      refine ⟨rfl, rfl, rfl, rfl, rfl, rfl, rfl, ?_⟩
      rw [← htr]

lemma initializeApplication_id_of_ne {env : Env} {uri : Option String}
    {c : ConfigApplication} {tr : List String} {app : App}
    (h : initializeApplication env uri c = (tr, .ok app)) (hne : c.id ≠ "") :
    app.id = c.id := by
  have hid := (initializeApplication_ok h).2.2.2.2.2.2.1
  rw [hid]
  simp [resolvedId, hne]

lemma initializeApplication_tr {env : Env} {uri : Option String}
    {c : ConfigApplication} {tr : List String} {r : Except ApplicationError App}
    (h : initializeApplication env uri c = (tr, r)) :
    ∀ x ∈ tr, x = resolvedId env (some c.id) := by
  unfold initializeApplication at h
  cases hc : createApplication env uri c.type (some c.id) with
  | error e =>
    rw [hc] at h
    simp only [Prod.mk.injEq] at h
    rw [← h.1]
    intro x hx
    cases hx
  | ok app0 =>
    rw [hc] at h
    obtain ⟨u, _, _, ha0⟩ := createApplication_ok hc
    simp only [Prod.mk.injEq] at h
    rw [← h.1]
    intro x hx
    simp only [List.mem_singleton] at hx
    subst hx
    subst ha0
    rfl

lemma initLoop_nil (env : Env) (uri : Option String) :
    initLoop env uri [] = ([], [], none) := rfl

lemma initLoop_cons_error {env : Env} {uri : Option String}
    {c : ConfigApplication} {rest : List ConfigApplication} {e : ApplicationError}
    (h : (initializeApplication env uri c).2 = .error e) :
    initLoop env uri (c :: rest) = ([], (initializeApplication env uri c).1, some e) := by
  rw [initLoop]
  rw [h]

lemma initLoop_cons_ok {env : Env} {uri : Option String}
    {c : ConfigApplication} {rest : List ConfigApplication} {app : App}
    (h : (initializeApplication env uri c).2 = .ok app) :
    initLoop env uri (c :: rest) =
      (app :: (initLoop env uri rest).1,
        (initializeApplication env uri c).1 ++ (initLoop env uri rest).2.1,
        (initLoop env uri rest).2.2) := by
  rw [initLoop]
  rw [h]

lemma initLoop_ok_mem {env : Env} {uri : Option String}
    {l : List ConfigApplication} {apps : List App} {tr : List String}
    (h : initLoop env uri l = (apps, tr, none)) :
    ∀ app ∈ apps, ∃ c ∈ l, (initializeApplication env uri c).2 = .ok app := by
  induction l generalizing apps tr with
  | nil =>
    rw [initLoop_nil] at h
    simp only [Prod.mk.injEq] at h
    rw [← h.1]
    intro app happ
    cases happ
  | cons c rest ih =>
    cases hi : (initializeApplication env uri c).2 with
    | error e =>
      rw [initLoop_cons_error hi] at h
      simp at h
    | ok app0 =>
      rw [initLoop_cons_ok hi] at h
      simp only [Prod.mk.injEq] at h
      obtain ⟨h1, _, h3⟩ := h
      intro app happ
      rw [← h1] at happ
      rcases List.mem_cons.1 happ with rfl | hmem
      · exact ⟨c, List.mem_cons_self _ _, hi⟩
      · have hrest : initLoop env uri rest =
            ((initLoop env uri rest).1, (initLoop env uri rest).2.1, none) := by
          rw [← h3]
        obtain ⟨c', hc', hr⟩ := ih hrest app hmem
        exact ⟨c', List.mem_cons_of_mem _ hc', hr⟩

lemma initLoop_error_mem {env : Env} {uri : Option String}
    {l : List ConfigApplication} {apps : List App} {tr : List String}
    {e : ApplicationError} (h : initLoop env uri l = (apps, tr, some e)) :
    ∃ c ∈ l, (initializeApplication env uri c).2 = .error e := by
  induction l generalizing apps tr with
  | nil =>
    rw [initLoop_nil] at h
    simp at h
  | cons c rest ih =>
    cases hi : (initializeApplication env uri c).2 with
    | error e' =>
      rw [initLoop_cons_error hi] at h
      simp only [Prod.mk.injEq] at h
      obtain ⟨-, -, h3⟩ := h
      cases h3
      exact ⟨c, List.mem_cons_self _ _, hi⟩
    | ok app0 =>
      rw [initLoop_cons_ok hi] at h
      simp only [Prod.mk.injEq] at h
      obtain ⟨-, -, h3⟩ := h
      have hrest : initLoop env uri rest =
          ((initLoop env uri rest).1, (initLoop env uri rest).2.1, some e) := by
        rw [← h3]
      obtain ⟨c', hc', hr⟩ := ih hrest
      exact ⟨c', List.mem_cons_of_mem _ hc', hr⟩

lemma initLoop_tr_mem {env : Env} {uri : Option String}
    {l : List ConfigApplication} {apps : List App} {tr : List String}
    {err : Option ApplicationError} (h : initLoop env uri l = (apps, tr, err)) :
    ∀ x ∈ tr, ∃ c ∈ l, x = resolvedId env (some c.id) := by
  induction l generalizing apps tr err with
  | nil =>
    rw [initLoop_nil] at h
    simp only [Prod.mk.injEq] at h
    rw [← h.2.1]
    intro x hx
    cases hx
  | cons c rest ih =>
    cases hi : (initializeApplication env uri c).2 with
    | error e' =>
      rw [initLoop_cons_error hi] at h
      simp only [Prod.mk.injEq] at h
      rw [← h.2.1]
      intro x hx
      have := @initializeApplication_tr env uri c
        (initializeApplication env uri c).1 (initializeApplication env uri c).2 rfl x hx
      exact ⟨c, List.mem_cons_self _ _, this⟩
    | ok app0 =>
      rw [initLoop_cons_ok hi] at h
      simp only [Prod.mk.injEq] at h
      rw [← h.2.1]
      intro x hx
      rcases List.mem_append.1 hx with hx0 | hx1
      · have := @initializeApplication_tr env uri c
          (initializeApplication env uri c).1 (initializeApplication env uri c).2 rfl x hx0
        exact ⟨c, List.mem_cons_self _ _, this⟩
      · have hrest : initLoop env uri rest =
            ((initLoop env uri rest).1, (initLoop env uri rest).2.1,
              (initLoop env uri rest).2.2) := rfl
        obtain ⟨c', hc', hr⟩ := ih hrest x hx1
        exact ⟨c', List.mem_cons_of_mem _ hc', hr⟩

lemma mergeProps_length (pure prev : List ConfigProperty) :
    (mergeProps pure prev).length = pure.length := by
  simp [mergeProps]

lemma mergeProps_getD (pure prev : List ConfigProperty) (d : ConfigProperty)
    (i : Nat) (h : i < pure.length) :
    (mergeProps pure prev).getD i d =
      (if prev.any fun pv => pv.key == (pure.getD i d).key && pv.changeable then
        (prev.find? fun pv => pv.key == (pure.getD i d).key).getD (pure.getD i d)
      else pure.getD i d) := by
  unfold mergeProps
  rw [List.getD_eq_getElem?_getD, List.getElem?_map, List.getElem?_eq_getElem h]
  rw [List.getD_eq_getElem?_getD, List.getElem?_eq_getElem h]
  rfl

/-- C1: for every record selected for reconstruction, the merged property
    list is computed over the handle's pure kind-default template: for each
    template property, a persisted changeable property with the same key
    replaces it (the first persisted property with that key is kept),
    otherwise the template property is kept; in particular a changeable
    persisted port 9090 overrides the template default 8080, while a
    non-changeable persisted port is discarded in favour of the template
    property. -/
theorem claim_C1 (env : Env) (uri : Option String) (c : ConfigApplication)
    (tr : List String) (app : App)
    (h : initializeApplication env uri c = (tr, .ok app)) :
    app.config.properties = mergeProps (env.template c.type) c.properties ∧
    (∀ d : ConfigProperty, ∀ i : Nat, i < (env.template c.type).length →
      ((∃ pv ∈ c.properties,
          pv.key = ((env.template c.type).getD i d).key ∧ pv.changeable = true) →
        app.config.properties.getD i d ∈ c.properties ∧
        (app.config.properties.getD i d).key = ((env.template c.type).getD i d).key) ∧
      ((¬ ∃ pv ∈ c.properties,
          pv.key = ((env.template c.type).getD i d).key ∧ pv.changeable = true) →
        app.config.properties.getD i d = (env.template c.type).getD i d)) ∧
    mergeProps [⟨"port", "8080", true⟩] [⟨"port", "9090", true⟩] =
      [⟨"port", "9090", true⟩] ∧
    mergeProps [⟨"port", "8080", true⟩] [⟨"port", "9090", false⟩] =
      [⟨"port", "8080", true⟩] := by
  have hprops := (initializeApplication_ok h).2.2.2.1
  refine ⟨hprops, ?_, by decide, by decide⟩
  intro d i hi
  set k := ((env.template c.type).getD i d).key with hk
  rw [hprops, mergeProps_getD _ _ _ _ hi, ← hk]
  constructor
  · intro hex
    have hany : (c.properties.any fun pv => pv.key == k && pv.changeable) = true := by
      rw [List.any_eq_true]
      obtain ⟨pv, hpv, hkey, hch⟩ := hex
      exact ⟨pv, hpv, by simp [hkey, hch]⟩
    rw [if_pos hany]
    have hsome : (c.properties.find? fun pv => pv.key == k).isSome := by
      rw [List.find?_isSome]
      obtain ⟨pv, hpv, hkey, _⟩ := hex
      exact ⟨pv, hpv, by simp [hkey]⟩
    obtain ⟨q, hq⟩ := Option.isSome_iff_exists.1 hsome
    rw [hq]
    have hqmem := List.mem_of_find?_eq_some hq
    have hqkey := List.find?_some hq
    exact ⟨hqmem, by simpa using hqkey⟩
  · intro hnex
    have hany : (c.properties.any fun pv => pv.key == k && pv.changeable) = false := by
      rw [Bool.eq_false_iff]
      intro hcon
      rw [List.any_eq_true] at hcon
      obtain ⟨pv, hpv, hp⟩ := hcon
      simp only [Bool.and_eq_true, beq_iff_eq] at hp
      exact hnex ⟨pv, hpv, hp.1, hp.2⟩
    rw [if_neg (by simp [hany])]

/-- Fixture record and resulting handle used by the C1 witness. -/
def cW : ConfigApplication := ⟨"A1", "TOMCAT", "/a", [⟨"port", "9090", true⟩]⟩

def appW : App := ⟨"A1", "TOMCAT", "ws", ⟨"A1", "TOMCAT", "/a", [⟨"port", "9090", true⟩]⟩, 1⟩

theorem claim_C1_witness :
    appW.config.properties = mergeProps (envW.template cW.type) cW.properties ∧
    (∀ d : ConfigProperty, ∀ i : Nat, i < (envW.template cW.type).length →
      ((∃ pv ∈ cW.properties,
          pv.key = ((envW.template cW.type).getD i d).key ∧ pv.changeable = true) →
        appW.config.properties.getD i d ∈ cW.properties ∧
        (appW.config.properties.getD i d).key = ((envW.template cW.type).getD i d).key) ∧
      ((¬ ∃ pv ∈ cW.properties,
          pv.key = ((envW.template cW.type).getD i d).key ∧ pv.changeable = true) →
        appW.config.properties.getD i d = (envW.template cW.type).getD i d)) ∧
    mergeProps [⟨"port", "8080", true⟩] [⟨"port", "9090", true⟩] =
      [⟨"port", "9090", true⟩] ∧
    mergeProps [⟨"port", "8080", true⟩] [⟨"port", "9090", false⟩] =
      [⟨"port", "8080", true⟩] :=
  claim_C1 envW (some "ws") cW ["A1"] appW (by decide)

/-- C9: rendering an ApplicationError is a deterministic function of its
    (msg, code) fields following the documented lookup rule; this matches the
    spec's wording whenever the empty string is not itself a registered code
    (JS truthiness of `this.code` makes an empty code fall through). -/
theorem claim_C9 (table : List (String × String)) (e : ApplicationError)
    (h : existsCode table "" = false) :
    renderError table e = specRender table e := by
  unfold renderError specRender
  cases e.code with
  | none => rfl
  | some c =>
    dsimp only
    by_cases hc : c = ""
    · subst hc
      simp [h]
    · have hbne : (c != "") = true := by simpa using hc
      simp [hbne]

theorem claim_C9_witness :
    existsCode [("E_AP_NVAT", "There is no selected application type.")] "" = false ∧
    renderError [("E_AP_NVAT", "There is no selected application type.")]
        { msg := "detail", code := some "E_AP_NVAT" } =
      specRender [("E_AP_NVAT", "There is no selected application type.")]
        { msg := "detail", code := some "E_AP_NVAT" } :=
  ⟨by decide,
    claim_C9 [("E_AP_NVAT", "There is no selected application type.")]
      { msg := "detail", code := some "E_AP_NVAT" } (by decide)⟩

/-- C10: when reading the persisted configuration file fails, the error
    propagates and the whole state — in particular the cache — is unchanged,
    for both values of `exactly`, because the clear happens only after a
    successful read. -/
theorem claim_C10 (env : Env) (exactly : Bool) (st : State) (e : ApplicationError)
    (h : st.file = .error e) :
    loadFromConfigurations env exactly st = (st, some e) := by
  unfold loadFromConfigurations
  rw [h]

/-- Fixture state whose persisted file is unreadable. -/
def stErr : State :=
  { uri := some "ws"
    cache := [appW]
    file := .error { msg := "E_AP_FAIL" }
    detached := []
    initCalls := []
    writes := [] }

theorem claim_C10_witness :
    loadFromConfigurations envW true stErr = (stErr, some { msg := "E_AP_FAIL" }) :=
  claim_C10 envW true stErr { msg := "E_AP_FAIL" } rfl

/-- C7 counterexample: the claim says a newly constructed handle is bound to
    the supplied id, but supplying the empty string — a supplied id — yields
    the generated id `App0` instead, because `id || "App" + Date.now()`
    treats the empty string as falsy. -/
theorem claim_C7_counterexample :
    (createApplication envW (some "ws") "TOMCAT" (some "")).map (fun a => a.id) =
      .ok "App0" ∧ "App0" ≠ "" := by
  constructor
  · decide
  · decide

/-- C7 (amended): createApplication fails with NotFoundWorkspace when the
    workspace is unset, with NoValidAppType when the kind has no registered
    class, and otherwise returns a new handle bound to the workspace location
    and to the supplied id when that id is non-empty — the generated id
    `"App" + current-time-millis` is used when no id, or an empty id, is
    supplied.  In every case the cache is left unchanged. -/
theorem claim_C7_amended (env : Env) (st : State) (t : String) (i : Option String) :
    (st.uri = none →
      createApplication env st.uri t i =
        .error { msg := ApplicationError.NotFoundWorkspace }) ∧
    (validType t = false → ∀ u, st.uri = some u →
      createApplication env st.uri t i =
        .error { msg := ApplicationError.NoValidAppType }) ∧
    (validType t = true → ∀ u s, st.uri = some u → i = some s → s ≠ "" →
      createApplication env st.uri t i = .ok (newApp env t s u) ∧
      (newApp env t s u).id = s ∧ (newApp env t s u).uri = u) ∧
    (validType t = true → ∀ u, st.uri = some u → (i = none ∨ i = some "") →
      createApplication env st.uri t i =
        .ok (newApp env t ("App" ++ toString env.now) u)) ∧
    step env st (.create t i) = st := by
  refine ⟨?_, ?_, ?_, ?_, rfl⟩
  · intro h0
    unfold createApplication
    rw [h0]
  · intro hv u hu
    unfold createApplication
    rw [hu]
    simp [hv]
  · intro hv u s hu hi hs
    subst hi
    unfold createApplication
    rw [hu]
    have hsb : (s == "") = false := by simpa using hs
    simp [hv, hsb]
    exact ⟨rfl, rfl⟩
  · intro hv u hu hi
    unfold createApplication
    rw [hu]
    rcases hi with rfl | rfl <;> simp [hv]

theorem claim_C7_witness :
    createApplication envW stTwo.uri "TOMCAT" (some "A7") =
      .ok (newApp envW "TOMCAT" "A7" "ws") ∧
    (newApp envW "TOMCAT" "A7" "ws").id = "A7" ∧
    (newApp envW "TOMCAT" "A7" "ws").uri = "ws" :=
  (claim_C7_amended envW stTwo "TOMCAT" (some "A7")).2.2.1 (by decide) "ws" "A7"
    rfl rfl (by decide)

/-- C4 counterexample: with two valid persisted records where init fails on
    the first, the claim says the second record is still constructed,
    initialized, written back and cached; the code instead aborts the whole
    reconciliation — the error propagates, nothing is written back, and the
    cache stays empty, so A2 is not cached. -/
theorem claim_C4_counterexample :
    (loadFromConfigurations envFail false stTwo).2 = some { msg := "init failed" } ∧
    (loadFromConfigurations envFail false stTwo).1.cache = [] ∧
    (loadFromConfigurations envFail false stTwo).1.writes = [] ∧
    "A2" ∉ ((loadFromConfigurations envFail false stTwo).1.cache.map (fun a => a.id)) := by
  refine ⟨by decide, by decide, by decide, by decide⟩

/-- C4 (amended): a failure of init (or of construction) on one selected
    record aborts the reconciliation: the error is surfaced to the caller,
    the write-back does not happen, the store reflects only the prune-pass
    detaches, and the cache is left as it was after the optional
    exactly-clear — in particular no record from this call is committed. -/
theorem claim_C4_amended (env : Env) (exactly : Bool) (st st' : State)
    (records : List ConfigApplication) (e : ApplicationError)
    (hf : st.file = .ok records)
    (hl : loadFromConfigurations env exactly st = (st', some e)) :
    st'.cache = (if exactly then [] else st.cache) ∧
    st'.writes = st.writes ∧
    st'.file = .ok (fileAfterPrune records) ∧
    ∃ c ∈ selectRecords (if exactly then [] else st.cache) records,
      (initializeApplication env st.uri c).2 = .error e := by
  unfold loadFromConfigurations at hl
  rw [hf] at hl
  dsimp only at hl
  cases herr :
      (initLoop env st.uri
        (selectRecords (if exactly then [] else st.cache) records)).2.2 with
  | none =>
    rw [herr] at hl
    simp [commitLoad] at hl
  | some e' =>
    rw [herr] at hl
    simp only [commitLoad, Prod.mk.injEq, Option.some.injEq] at hl
    obtain ⟨h1, h2⟩ := hl
    have hloop : initLoop env st.uri
        (selectRecords (if exactly then [] else st.cache) records) =
        ((initLoop env st.uri
            (selectRecords (if exactly then [] else st.cache) records)).1,
          (initLoop env st.uri
            (selectRecords (if exactly then [] else st.cache) records)).2.1,
          some e') := by
      rw [← herr]
    refine ⟨?_, ?_, ?_, ?_⟩
    · rw [← h1]
    · rw [← h1]
    · rw [← h1]
    · rw [← h2]
      exact initLoop_error_mem hloop

theorem claim_C4_witness :
    (loadFromConfigurations envFail false stTwo).1.cache =
      (if false then [] else stTwo.cache) ∧
    (loadFromConfigurations envFail false stTwo).1.writes = stTwo.writes ∧
    (loadFromConfigurations envFail false stTwo).1.file =
      .ok (fileAfterPrune [⟨"A1", "TOMCAT", "/a", []⟩, ⟨"A2", "TOMCAT", "/b", []⟩]) ∧
    ∃ c ∈ selectRecords (if false then [] else stTwo.cache)
        [⟨"A1", "TOMCAT", "/a", []⟩, ⟨"A2", "TOMCAT", "/b", []⟩],
      (initializeApplication envFail stTwo.uri c).2 = .error { msg := "init failed" } :=
  claim_C4_amended envFail false stTwo (loadFromConfigurations envFail false stTwo).1
    [⟨"A1", "TOMCAT", "/a", []⟩, ⟨"A2", "TOMCAT", "/b", []⟩] { msg := "init failed" }
    rfl (by decide)

lemma updateFirst_length (cfg : ConfigApplication) (id : String) (l : List App) :
    (updateFirst cfg id l).length = l.length := by
  induction l with
  | nil => rfl
  | cons a rest ih =>
    rw [updateFirst]
    by_cases h : (a.id == id) = true
    · rw [if_pos h]
      simp
    · rw [if_neg h]
      simp [ih]

lemma updateFirst_map_id (cfg : ConfigApplication) (id : String) (l : List App) :
    (updateFirst cfg id l).map (fun a => a.id) = l.map (fun a => a.id) := by
  induction l with
  | nil => rfl
  | cons a rest ih =>
    rw [updateFirst]
    by_cases h : (a.id == id) = true
    · rw [if_pos h]
      simp
    · rw [if_neg h]
      simp [ih]

lemma updateFirst_getD_or (cfg : ConfigApplication) (id : String) (l : List App)
    (d : App) (j : Nat) :
    (updateFirst cfg id l).getD j d = l.getD j d ∨
    (updateFirst cfg id l).getD j d = { l.getD j d with config := cfg } := by
  induction l generalizing j with
  | nil => left; rfl
  | cons a rest ih =>
    rw [updateFirst]
    by_cases h : (a.id == id) = true
    · rw [if_pos h]
      cases j with
      | zero => right; simp [List.getD_cons_zero]
      | succ n => left; simp [List.getD_cons_succ]
    · rw [if_neg h]
      cases j with
      | zero => left; simp [List.getD_cons_zero]
      | succ n => simpa [List.getD_cons_succ] using ih n

lemma updateFirst_getD_of_ne (cfg : ConfigApplication) (id : String) (l : List App)
    (d : App) (j : Nat) (h : (l.getD j d).id ≠ id) :
    (updateFirst cfg id l).getD j d = l.getD j d := by
  induction l generalizing j with
  | nil => rfl
  | cons a rest ih =>
    rw [updateFirst]
    by_cases ha : (a.id == id) = true
    · rw [if_pos ha]
      cases j with
      | zero =>
        rw [List.getD_cons_zero] at h
        exact absurd (by simpa using ha) h
      | succ n => simp [List.getD_cons_succ]
    · rw [if_neg ha]
      cases j with
      | zero => simp [List.getD_cons_zero]
      | succ n =>
        rw [List.getD_cons_succ] at h
        simpa [List.getD_cons_succ] using ih n h

lemma updateFirst_first (cfg : ConfigApplication) (id : String) (l : List App)
    (d : App) (j : Nat) (hj : j < l.length) (hmatch : (l.getD j d).id = id)
    (hfirst : ∀ i, i < j → (l.getD i d).id ≠ id) :
    (updateFirst cfg id l).getD j d = { l.getD j d with config := cfg } := by
  induction l generalizing j with
  | nil => exact absurd hj (by simp)
  | cons a rest ih =>
    cases j with
    | zero =>
      rw [List.getD_cons_zero] at hmatch
      rw [updateFirst, if_pos (by simpa using hmatch)]
      simp [List.getD_cons_zero]
    | succ n =>
      have ha : a.id ≠ id := by
        have := hfirst 0 (Nat.succ_pos n)
        simpa [List.getD_cons_zero] using this
      rw [updateFirst, if_neg (by simpa using ha)]
      rw [List.getD_cons_succ, List.getD_cons_succ]
      exact ih n (by simpa using hj) (by simpa [List.getD_cons_succ] using hmatch)
        (fun i hi => by
          have := hfirst (i + 1) (Nat.succ_lt_succ hi)
          simpa [List.getD_cons_succ] using this)

lemma mem_updateFirst_of_ne (cfg : ConfigApplication) (id : String) (l : List App)
    (a : App) (ha : a ∈ l) (hne : a.id ≠ id) : a ∈ updateFirst cfg id l := by
  induction l with
  | nil => cases ha
  | cons b rest ih =>
    rw [updateFirst]
    by_cases hb : (b.id == id) = true
    · rw [if_pos hb]
      rcases List.mem_cons.1 ha with rfl | hmem
      · exact absurd (by simpa using hb) hne
      · exact List.mem_cons_of_mem _ hmem
    · rw [if_neg hb]
      rcases List.mem_cons.1 ha with rfl | hmem
      · exact List.mem_cons_self _ _
      · exact List.mem_cons_of_mem _ (ih hmem)

lemma upsert_length_ge (c : List App) (a : App) : c.length ≤ (upsert c a).length := by
  unfold upsert
  by_cases h : (c.any fun x => x.id == a.id) = true
  · rw [if_pos h, updateFirst_length]
  · rw [if_neg h]
    simp

lemma mem_ids_upsert (c : List App) (a : App) (x : String)
    (h : x ∈ c.map (fun b => b.id)) : x ∈ (upsert c a).map (fun b => b.id) := by
  unfold upsert
  by_cases hc : (c.any fun b => b.id == a.id) = true
  · rw [if_pos hc, updateFirst_map_id]
    exact h
  · rw [if_neg hc]
    simpa using Or.inl h

lemma ids_upsert_subset (c : List App) (a : App) (x : String)
    (h : x ∈ (upsert c a).map (fun b => b.id)) :
    x ∈ c.map (fun b => b.id) ∨ x = a.id := by
  unfold upsert at h
  by_cases hc : (c.any fun b => b.id == a.id) = true
  · rw [if_pos hc, updateFirst_map_id] at h
    exact Or.inl h
  · rw [if_neg hc] at h
    simpa using h

lemma self_id_mem_upsert (c : List App) (a : App) :
    a.id ∈ (upsert c a).map (fun b => b.id) := by
  unfold upsert
  by_cases hc : (c.any fun b => b.id == a.id) = true
  · rw [if_pos hc, updateFirst_map_id]
    rw [List.any_eq_true] at hc
    obtain ⟨b, hb, hbeq⟩ := hc
    have : b.id = a.id := by simpa using hbeq
    rw [← this]
    exact List.mem_map_of_mem _ hb
  · rw [if_neg hc]
    simp

lemma nodup_upsert (c : List App) (a : App)
    (h : (c.map (fun b => b.id)).Nodup) : ((upsert c a).map (fun b => b.id)).Nodup := by
  unfold upsert
  by_cases hc : (c.any fun b => b.id == a.id) = true
  · rw [if_pos hc, updateFirst_map_id]
    exact h
  · rw [if_neg hc]
    have hnot : a.id ∉ c.map (fun b => b.id) := by
      intro hmem
      apply hc
      rw [List.any_eq_true]
      rw [List.mem_map] at hmem
      obtain ⟨b, hb, hbid⟩ := hmem
      exact ⟨b, hb, by simp [hbid]⟩
    simp [List.nodup_append, h, hnot]

lemma mem_upsert_of_ne (c : List App) (a b : App) (hb : b ∈ c) (hne : b.id ≠ a.id) :
    b ∈ upsert c a := by
  unfold upsert
  by_cases hc : (c.any fun x => x.id == a.id) = true
  · rw [if_pos hc]
    exact mem_updateFirst_of_ne _ _ _ _ hb hne
  · rw [if_neg hc]
    exact List.mem_append_left _ hb

lemma upsert_getD_frame (c : List App) (a : App) (d : App) (j : Nat)
    (hj : j < c.length) :
    sameExceptConfig (c.getD j d) ((upsert c a).getD j d) := by
  unfold upsert
  by_cases hc : (c.any fun b => b.id == a.id) = true
  · rw [if_pos hc]
    rcases updateFirst_getD_or a.config a.id c d j with h | h
    · rw [h]
      exact sameExceptConfig_refl _
    · rw [h]
      exact ⟨rfl, rfl, rfl, rfl⟩
  · rw [if_neg hc]
    rw [List.getD_append _ _ _ _ hj]
    exact sameExceptConfig_refl _

lemma upsert_getD_of_ne (c : List App) (a : App) (d : App) (j : Nat)
    (hj : j < c.length) (h : (c.getD j d).id ≠ a.id) :
    (upsert c a).getD j d = c.getD j d := by
  unfold upsert
  by_cases hc : (c.any fun b => b.id == a.id) = true
  · rw [if_pos hc]
    exact updateFirst_getD_of_ne _ _ _ _ _ h
  · rw [if_neg hc]
    exact List.getD_append _ _ _ _ hj

lemma upsert_getD_first (c : List App) (a : App) (d : App) (j : Nat)
    (hj : j < c.length) (hmatch : (c.getD j d).id = a.id)
    (hfirst : ∀ i, i < j → (c.getD i d).id ≠ a.id) :
    (upsert c a).getD j d = { c.getD j d with config := a.config } := by
  unfold upsert
  have hmem : c.getD j d ∈ c := by
    rw [List.getD_eq_getElem _ _ hj]
    exact List.getElem_mem hj
  have hc : (c.any fun b => b.id == a.id) = true := by
    rw [List.any_eq_true]
    refine ⟨c.getD j d, hmem, ?_⟩
    simp only [beq_iff_eq]
    exact hmatch
  rw [if_pos hc]
  exact updateFirst_first _ _ _ _ _ hj hmatch hfirst

lemma setApps_nil (c : List App) : setAppsToContainer [] c = c := rfl

lemma setApps_cons (a : App) (l : List App) (c : List App) :
    setAppsToContainer (a :: l) c = setAppsToContainer l (upsert c a) := rfl

lemma setApps_append (l1 l2 : List App) (c : List App) :
    setAppsToContainer (l1 ++ l2) c = setAppsToContainer l2 (setAppsToContainer l1 c) :=
  List.foldl_append _ _ _ _

lemma setApps_length_ge (apps c : List App) :
    c.length ≤ (setAppsToContainer apps c).length := by
  induction apps generalizing c with
  | nil => exact Nat.le_refl _
  | cons a rest ih =>
    rw [setApps_cons]
    exact Nat.le_trans (upsert_length_ge c a) (ih (upsert c a))

lemma mem_ids_setApps (apps c : List App) (x : String)
    (h : x ∈ c.map (fun b => b.id)) :
    x ∈ (setAppsToContainer apps c).map (fun b => b.id) := by
  induction apps generalizing c with
  | nil => exact h
  | cons a rest ih =>
    rw [setApps_cons]
    exact ih _ (mem_ids_upsert c a x h)

lemma ids_setApps_subset (apps c : List App) (x : String)
    (h : x ∈ (setAppsToContainer apps c).map (fun b => b.id)) :
    x ∈ c.map (fun b => b.id) ∨ ∃ a ∈ apps, x = a.id := by
  induction apps generalizing c with
  | nil => exact Or.inl h
  | cons a rest ih =>
    rw [setApps_cons] at h
    rcases ih _ h with h1 | h2
    · rcases ids_upsert_subset c a x h1 with h3 | h3
      · exact Or.inl h3
      · exact Or.inr ⟨a, List.mem_cons_self _ _, h3⟩
    · obtain ⟨b, hb, hx⟩ := h2
      exact Or.inr ⟨b, List.mem_cons_of_mem _ hb, hx⟩

lemma mem_setApps_self_id (apps c : List App) (a : App) (ha : a ∈ apps) :
    a.id ∈ (setAppsToContainer apps c).map (fun b => b.id) := by
  induction apps generalizing c with
  | nil => cases ha
  | cons b rest ih =>
    rw [setApps_cons]
    rcases List.mem_cons.1 ha with rfl | hmem
    · exact mem_ids_setApps _ _ _ (self_id_mem_upsert c a)
    · exact ih _ hmem

lemma nodup_setApps (apps c : List App) (h : (c.map (fun b => b.id)).Nodup) :
    ((setAppsToContainer apps c).map (fun b => b.id)).Nodup := by
  induction apps generalizing c with
  | nil => exact h
  | cons a rest ih =>
    rw [setApps_cons]
    exact ih _ (nodup_upsert c a h)

lemma setApps_getD_frame (apps c : List App) (d : App) (j : Nat)
    (hj : j < c.length) :
    sameExceptConfig (c.getD j d) ((setAppsToContainer apps c).getD j d) := by
  induction apps generalizing c with
  | nil => exact sameExceptConfig_refl _
  | cons a rest ih =>
    rw [setApps_cons]
    exact sameExceptConfig_trans (upsert_getD_frame c a d j hj)
      (ih _ (Nat.lt_of_lt_of_le hj (upsert_length_ge c a)))

lemma setApps_getD_of_ne (apps c : List App) (d : App) (j : Nat)
    (hj : j < c.length) (h : ∀ a ∈ apps, a.id ≠ (c.getD j d).id) :
    (setAppsToContainer apps c).getD j d = c.getD j d := by
  induction apps generalizing c with
  | nil => rfl
  | cons a rest ih =>
    rw [setApps_cons]
    have h1 : (upsert c a).getD j d = c.getD j d :=
      upsert_getD_of_ne c a d j hj (Ne.symm (h a (List.mem_cons_self _ _)))
    have h2 := ih (upsert c a) (Nat.lt_of_lt_of_le hj (upsert_length_ge c a))
      (fun b hb => by
        rw [h1]
        exact h b (List.mem_cons_of_mem _ hb))
    rw [h2, h1]

lemma mem_setApps_of_ne (apps c : List App) (b : App) (hb : b ∈ c)
    (hne : ∀ a ∈ apps, b.id ≠ a.id) : b ∈ setAppsToContainer apps c := by
  induction apps generalizing c with
  | nil => exact hb
  | cons a rest ih =>
    rw [setApps_cons]
    exact ih _ (mem_upsert_of_ne c a b hb (hne a (List.mem_cons_self _ _)))
      (fun x hx => hne x (List.mem_cons_of_mem _ hx))

lemma exists_first_match (l : List App) (d : App) (x : String)
    (h : ∃ b ∈ l, b.id = x) :
    ∃ j, j < l.length ∧ (l.getD j d).id = x ∧ ∀ i, i < j → (l.getD i d).id ≠ x := by
  induction l with
  | nil => simp at h
  | cons a rest ih =>
    by_cases ha : a.id = x
    · exact ⟨0, Nat.succ_pos _, by simpa [List.getD_cons_zero] using ha,
        fun i hi => absurd hi (Nat.not_lt_zero i)⟩
    · obtain ⟨b, hb, hbx⟩ := h
      rcases List.mem_cons.1 hb with rfl | hmem
      · exact absurd hbx ha
      · obtain ⟨j, hj, hm, hf⟩ := ih ⟨b, hmem, hbx⟩
        refine ⟨j + 1, Nat.succ_lt_succ hj, by simpa [List.getD_cons_succ] using hm, ?_⟩
        intro i hi
        cases i with
        | zero => simpa [List.getD_cons_zero] using ha
        | succ n =>
          rw [List.getD_cons_succ]
          exact hf n (Nat.lt_of_succ_lt_succ hi)

lemma upsert_of_not_mem (c : List App) (a : App)
    (h : a.id ∉ c.map (fun b => b.id)) : upsert c a = c ++ [a] := by
  unfold upsert
  rw [if_neg]
  intro hc
  rw [List.any_eq_true] at hc
  obtain ⟨b, hb, hbeq⟩ := hc
  have hbid : b.id = a.id := by simpa using hbeq
  exact h (hbid ▸ List.mem_map_of_mem _ hb)

lemma nodup_split {pre post : List App} {a : App}
    (h : (((pre ++ a :: post).map (fun b => b.id))).Nodup) :
    a.id ∉ pre.map (fun b => b.id) ∧ ∀ b ∈ post, b.id ≠ a.id := by
  rw [List.map_append, List.map_cons, List.nodup_append] at h
  obtain ⟨h1, h2, h3⟩ := h
  constructor
  · intro hmem
    exact h3 hmem (List.mem_cons_self _ _)
  · intro b hb hbid
    exact (List.nodup_cons.1 h2).1 (hbid ▸ List.mem_map_of_mem _ hb)

/-- C5: for every handle passed to setAppsToContainer whose id is already
    cached, only the first cached entry with that id has its config replaced
    by the incoming config — identity, kind, workspace binding and init count
    of every pre-existing entry are untouched and entries whose id is not
    among the incoming handles are fully unchanged (so init is never invoked
    by the upsert) — while every handle with a fresh id is inserted as a new
    cache entry. -/
theorem claim_C5 (apps cache : List App) (d : App)
    (hnodup : (apps.map (fun a => a.id)).Nodup) :
    (cache.length ≤ (setAppsToContainer apps cache).length) ∧
    (∀ j, j < cache.length →
      sameExceptConfig (cache.getD j d) ((setAppsToContainer apps cache).getD j d)) ∧
    (∀ j, j < cache.length → (∀ a ∈ apps, a.id ≠ (cache.getD j d).id) →
      (setAppsToContainer apps cache).getD j d = cache.getD j d) ∧
    (∀ a ∈ apps, (∃ b ∈ cache, b.id = a.id) →
      ∃ j, j < cache.length ∧ (cache.getD j d).id = a.id ∧
        (∀ i, i < j → (cache.getD i d).id ≠ a.id) ∧
        (setAppsToContainer apps cache).getD j d =
          { cache.getD j d with config := a.config }) ∧
    (∀ a ∈ apps, (∀ b ∈ cache, b.id ≠ a.id) → a ∈ setAppsToContainer apps cache) := by
  refine ⟨setApps_length_ge apps cache,
    fun j hj => setApps_getD_frame apps cache d j hj,
    fun j hj h => setApps_getD_of_ne apps cache d j hj h, ?_, ?_⟩
  · intro a ha hex
    obtain ⟨pre, post, rfl⟩ := List.append_of_mem ha
    obtain ⟨hpre, hpost⟩ := nodup_split hnodup
    obtain ⟨j, hj, hm, hf⟩ := exists_first_match cache d a.id hex
    rw [setApps_append, setApps_cons]
    have h1 : (setAppsToContainer pre cache).getD j d = cache.getD j d := by
      refine setApps_getD_of_ne pre cache d j hj ?_
      intro b hb
      rw [hm]
      intro hbid
      exact hpre (hbid ▸ List.mem_map_of_mem _ hb)
    have hj1 : j < (setAppsToContainer pre cache).length :=
      Nat.lt_of_lt_of_le hj (setApps_length_ge pre cache)
    have h2 : (upsert (setAppsToContainer pre cache) a).getD j d =
        { (setAppsToContainer pre cache).getD j d with config := a.config } := by
      refine upsert_getD_first _ a d j hj1 (by rw [h1]; exact hm) ?_
      intro i hi
      have hfr := setApps_getD_frame pre cache d i (Nat.lt_trans hi hj)
      rw [← hfr.1]
      exact hf i hi
    have hj2 : j < (upsert (setAppsToContainer pre cache) a).length :=
      Nat.lt_of_lt_of_le hj1 (upsert_length_ge _ a)
    have h3 : (setAppsToContainer post (upsert (setAppsToContainer pre cache) a)).getD j d =
        (upsert (setAppsToContainer pre cache) a).getD j d := by
      refine setApps_getD_of_ne post _ d j hj2 ?_
      intro b hb
      rw [h2]
      show b.id ≠ ((setAppsToContainer pre cache).getD j d).id
      rw [h1, hm]
      exact hpost b hb
    exact ⟨j, hj, hm, hf, by rw [h3, h2, h1]⟩
  · intro a ha hnone
    obtain ⟨pre, post, rfl⟩ := List.append_of_mem ha
    obtain ⟨hpre, hpost⟩ := nodup_split hnodup
    rw [setApps_append, setApps_cons]
    have hnot : a.id ∉ (setAppsToContainer pre cache).map (fun b => b.id) := by
      intro hmem
      rcases ids_setApps_subset pre cache a.id hmem with hcache | ⟨b, hb, hbid⟩
      · rw [List.mem_map] at hcache
        obtain ⟨b, hb, hbid⟩ := hcache
        exact hnone b hb hbid
      · exact hpre (hbid ▸ List.mem_map_of_mem _ hb)
    rw [upsert_of_not_mem _ a hnot]
    refine mem_setApps_of_ne post _ a (List.mem_append_right _ (List.mem_singleton.2 rfl)) ?_
    intro b hb
    exact fun hid => hpost b hb hid.symm

/-- Fixture incoming handles for witnesses: an update for the cached id A1
    and a new handle with id A2. -/
def appU : App := ⟨"A1", "TOMCAT", "ws", ⟨"A1", "TOMCAT", "/u", []⟩, 1⟩

def appV : App := ⟨"A2", "TOMCAT", "ws", ⟨"A2", "TOMCAT", "/v", []⟩, 1⟩

theorem claim_C5_witness :
    ([appW].length ≤ (setAppsToContainer [appU, appV] [appW]).length) ∧
    (∀ j, j < [appW].length →
      sameExceptConfig ([appW].getD j appW)
        ((setAppsToContainer [appU, appV] [appW]).getD j appW)) ∧
    (∀ j, j < [appW].length → (∀ a ∈ [appU, appV], a.id ≠ ([appW].getD j appW).id) →
      (setAppsToContainer [appU, appV] [appW]).getD j appW = [appW].getD j appW) ∧
    (∀ a ∈ [appU, appV], (∃ b ∈ [appW], b.id = a.id) →
      ∃ j, j < [appW].length ∧ ([appW].getD j appW).id = a.id ∧
        (∀ i, i < j → ([appW].getD i appW).id ≠ a.id) ∧
        (setAppsToContainer [appU, appV] [appW]).getD j appW =
          { [appW].getD j appW with config := a.config }) ∧
    (∀ a ∈ [appU, appV], (∀ b ∈ [appW], b.id ≠ a.id) →
      a ∈ setAppsToContainer [appU, appV] [appW]) :=
  claim_C5 [appU, appV] [appW] appW (by decide)

lemma load_read_error (env : Env) (exactly : Bool) (st : State) (e : ApplicationError)
    (h : st.file = .error e) : loadFromConfigurations env exactly st = (st, some e) := by
  unfold loadFromConfigurations
  rw [h]

lemma load_loop_error (env : Env) (exactly : Bool) (st : State)
    (records : List ConfigApplication) (e : ApplicationError)
    (hf : st.file = .ok records)
    (herr : (initLoop env st.uri
      (selectRecords (if exactly then [] else st.cache) records)).2.2 = some e) :
    loadFromConfigurations env exactly st =
      ({ st with
          cache := (if exactly then [] else st.cache)
          file := .ok (fileAfterPrune records)
          detached := st.detached ++ pruneIds records
          initCalls := st.initCalls ++ (initLoop env st.uri
            (selectRecords (if exactly then [] else st.cache) records)).2.1 },
        some e) := by
  unfold loadFromConfigurations
  rw [hf]
  dsimp only
  rw [herr]
  exact rfl

lemma load_success (env : Env) (exactly : Bool) (st : State)
    (records : List ConfigApplication)
    (hf : st.file = .ok records)
    (hok : (initLoop env st.uri
      (selectRecords (if exactly then [] else st.cache) records)).2.2 = none) :
    loadFromConfigurations env exactly st =
      ({ st with
          cache := setAppsToContainer
            (initLoop env st.uri
              (selectRecords (if exactly then [] else st.cache) records)).1
            (if exactly then [] else st.cache)
          file := .ok ((initLoop env st.uri
            (selectRecords (if exactly then [] else st.cache) records)).1.map
              (fun a => a.config))
          detached := st.detached ++ pruneIds records
          initCalls := st.initCalls ++ (initLoop env st.uri
            (selectRecords (if exactly then [] else st.cache) records)).2.1
          writes := st.writes ++ [(initLoop env st.uri
            (selectRecords (if exactly then [] else st.cache) records)).1.map
              (fun a => a.config)] },
        none) := by
  unfold loadFromConfigurations
  rw [hf]
  dsimp only
  rw [hok]
  exact rfl

lemma step_nodup (env : Env) (st : State) (op : Op)
    (h : (st.cache.map (fun a => a.id)).Nodup) :
    (((step env st op).cache).map (fun a => a.id)).Nodup := by
  cases op with
  | create t i => exact h
  | getApp i => exact h
  | getApps => exact h
  | reset => simp [step, reset]
  | setApps apps => exact nodup_setApps apps st.cache h
  | load ex =>
    dsimp [step]
    cases hf : st.file with
    | error e =>
      rw [load_read_error env ex st e hf]
      exact h
    | ok records =>
      cases herr : (initLoop env st.uri
          (selectRecords (if ex then [] else st.cache) records)).2.2 with
      | some e =>
        rw [load_loop_error env ex st records e hf herr]
        cases ex with
        | false => exact h
        | true => simp
      | none =>
        rw [load_success env ex st records hf herr]
        dsimp only
        apply nodup_setApps
        cases ex with
        | false => exact h
        | true => simp

/-- C8: starting from an empty cache, any sequence of registry operations —
    including setAppsToContainer with duplicate-id input and loads from a
    store with duplicate-id records — leaves the cache free of duplicate
    ids. -/
theorem claim_C8 (env : Env) (st0 : State) (ops : List Op) (h : st0.cache = []) :
    (((ops.foldl (step env) st0).cache).map (fun a => a.id)).Nodup := by
  have main : ∀ (l : List Op) (st : State), (st.cache.map (fun a => a.id)).Nodup →
      (((l.foldl (step env) st).cache).map (fun a => a.id)).Nodup := by
    intro l
    induction l with
    | nil => intro st hst; exact hst
    | cons op rest ih =>
      intro st hst
      exact ih _ (step_nodup env st op hst)
  refine main ops st0 ?_
  rw [h]
  exact List.nodup_nil

/-- Fixture state whose persisted store contains two records with the same
    id. -/
def stDup : State :=
  { uri := some "ws"
    cache := []
    file := .ok [⟨"A1", "TOMCAT", "/a", []⟩, ⟨"A1", "TOMCAT", "/a2", []⟩]
    detached := []
    initCalls := []
    writes := [] }

/-- Fixture operation sequence with duplicate-id upserts and loads. -/
def opsW : List Op :=
  [.setApps [appU, appV, appU], .load false, .create "TOMCAT" none, .reset,
    .load true, .setApps [appU, appU], .getApp "A1", .getApps]

theorem claim_C8_witness :
    stDup.cache = [] ∧
    (((opsW.foldl (step envW) stDup).cache).map (fun a => a.id)).Nodup :=
  ⟨rfl, claim_C8 envW stDup opsW rfl⟩

lemma mem_keptRecords {records : List ConfigApplication} {a : ConfigApplication}
    (h : a ∈ keptRecords records) : a ∈ records ∧ a.appPath ≠ "" := by
  unfold keptRecords at h
  rw [List.mem_filter] at h
  exact ⟨h.1, by simpa using h.2⟩

lemma mem_selectRecords {cache : List App} {records : List ConfigApplication}
    {a : ConfigApplication} (h : a ∈ selectRecords cache records) :
    a ∈ records ∧ a.appPath ≠ "" ∧ a.id ∉ cache.map (fun b => b.id) := by
  unfold selectRecords at h
  rw [List.mem_filter] at h
  obtain ⟨h1, h2⟩ := h
  obtain ⟨ha, hp⟩ := mem_keptRecords h1
  refine ⟨ha, hp, ?_⟩
  intro hmem
  rw [List.mem_map] at hmem
  obtain ⟨b, hb, hbid⟩ := hmem
  have hany : (cache.any fun l => l.id == a.id) = true := by
    rw [List.any_eq_true]
    exact ⟨b, hb, by simp [hbid]⟩
  rw [hany] at h2
  cases h2

lemma mem_pruneIds {records : List ConfigApplication} {a : ConfigApplication}
    (ha : a ∈ records) (hp : a.appPath = "") : a.id ∈ pruneIds records := by
  unfold pruneIds
  exact List.mem_map_of_mem _ (List.mem_filter.2 ⟨ha, by simp [hp]⟩)

lemma fileAfterPrune_eq_kept (records : List ConfigApplication)
    (hnd : (records.map (fun b => b.id)).Nodup) :
    fileAfterPrune records = keptRecords records := by
  unfold fileAfterPrune keptRecords
  apply List.filter_congr
  intro a ha
  by_cases hp : a.appPath = ""
  · have hmem : a.id ∈ pruneIds records := mem_pruneIds ha hp
    simp [hp, List.elem_iff, hmem]
  · have hnotin : a.id ∉ pruneIds records := by
      intro hmem
      unfold pruneIds at hmem
      rw [List.mem_map] at hmem
      obtain ⟨b, hb, hbid⟩ := hmem
      rw [List.mem_filter] at hb
      have hba : b = a := List.inj_on_of_nodup_map hnd hb.1 ha hbid
      subst hba
      exact hp (by simpa using hb.2)
    simp [hp, List.elem_iff, hnotin]

lemma kept_idem (records : List ConfigApplication) :
    keptRecords (keptRecords records) = keptRecords records := by
  unfold keptRecords
  rw [List.filter_filter]
  apply List.filter_congr
  intro a ha
  simp

lemma select_kept (cache : List App) (records : List ConfigApplication) :
    selectRecords cache (keptRecords records) = selectRecords cache records := by
  unfold selectRecords
  rw [kept_idem]

/-- C3: every persisted record with an empty appPath is detached (detach is
    requested with its id during the call) and dropped from processing, so —
    when its id was not already cached before the call (or in exactly mode) —
    no handle carrying its id is in the cache after the reconciliation.
    The store-id-uniqueness invariant of the data model (distinct, non-empty
    record ids) is assumed. -/
theorem claim_C3 (env : Env) (exactly : Bool) (st st' : State)
    (records : List ConfigApplication) (r : Option ApplicationError)
    (a : ConfigApplication)
    (hf : st.file = .ok records)
    (hl : loadFromConfigurations env exactly st = (st', r))
    (hnd : (records.map (fun b => b.id)).Nodup)
    (hne : ∀ b ∈ records, b.id ≠ "")
    (ha : a ∈ records) (hp : a.appPath = "")
    (hfresh : exactly = true ∨ a.id ∉ st.cache.map (fun b => b.id)) :
    a.id ∈ st'.detached.drop st.detached.length ∧
    a.id ∉ st'.cache.map (fun b => b.id) := by
  have hbase : a.id ∉ (if exactly then [] else st.cache).map (fun b => b.id) := by
    cases exactly with
    | true => simp
    | false =>
      rcases hfresh with habs | hnotin
      · cases habs
      · exact hnotin
  cases herr : (initLoop env st.uri
      (selectRecords (if exactly then [] else st.cache) records)).2.2 with
  | some e =>
    rw [load_loop_error env exactly st records e hf herr] at hl
    obtain ⟨h1, h2⟩ := Prod.mk.inj hl
    subst h1
    constructor
    · rw [List.drop_left]
      exact mem_pruneIds ha hp
    · exact hbase
  | none =>
    rw [load_success env exactly st records hf herr] at hl
    obtain ⟨h1, h2⟩ := Prod.mk.inj hl
    subst h1
    constructor
    · rw [List.drop_left]
      exact mem_pruneIds ha hp
    · dsimp only
      intro hmem
      rcases ids_setApps_subset _ _ _ hmem with hb | ⟨app, happ, hid⟩
      · exact hbase hb
      · have htrip : initLoop env st.uri
            (selectRecords (if exactly then [] else st.cache) records) =
            ((initLoop env st.uri
                (selectRecords (if exactly then [] else st.cache) records)).1,
              (initLoop env st.uri
                (selectRecords (if exactly then [] else st.cache) records)).2.1,
              none) := by
          rw [← herr]
        obtain ⟨c, hc, hcr⟩ := initLoop_ok_mem htrip app happ
        obtain ⟨hcrec, hcpath, -⟩ := mem_selectRecords hc
        have hpair : initializeApplication env st.uri c =
            ((initializeApplication env st.uri c).1, .ok app) := by
          rw [← hcr]
        have happid : app.id = c.id :=
          initializeApplication_id_of_ne hpair (hne c hcrec)
        have hac : a = c := List.inj_on_of_nodup_map hnd ha hcrec (by rw [← happid, ← hid])
        rw [hac] at hp
        exact hcpath hp

/-- Fixture state: one valid record A1 and one invalid (empty appPath)
    record A2. -/
def stPrune : State :=
  { uri := some "ws"
    cache := []
    file := .ok [⟨"A1", "TOMCAT", "/a", [⟨"port", "9090", true⟩]⟩, ⟨"A2", "TOMCAT", "", []⟩]
    detached := []
    initCalls := []
    writes := [] }

theorem claim_C3_witness :
    (⟨"A2", "TOMCAT", "", []⟩ : ConfigApplication).id ∈
      ((loadFromConfigurations envW false stPrune).1).detached.drop stPrune.detached.length ∧
    (⟨"A2", "TOMCAT", "", []⟩ : ConfigApplication).id ∉
      ((loadFromConfigurations envW false stPrune).1).cache.map (fun b => b.id) :=
  claim_C3 envW false stPrune (loadFromConfigurations envW false stPrune).1
    [⟨"A1", "TOMCAT", "/a", [⟨"port", "9090", true⟩]⟩, ⟨"A2", "TOMCAT", "", []⟩]
    (loadFromConfigurations envW false stPrune).2 ⟨"A2", "TOMCAT", "", []⟩
    rfl rfl (by decide) (by decide) (by decide) (by decide) (Or.inr (by decide))

/-- C6: loadFromConfigurations(true) clears the cache before reconciling, so
    afterwards every cached handle's id comes from the freshly read persisted
    list, and any previously cached id absent from that list is gone
    (assuming the data model's non-empty record ids). -/
theorem claim_C6 (env : Env) (st st' : State) (records : List ConfigApplication)
    (r : Option ApplicationError)
    (hf : st.file = .ok records)
    (hne : ∀ b ∈ records, b.id ≠ "")
    (hl : loadFromConfigurations env true st = (st', r)) :
    (∀ h_ ∈ st'.cache, h_.id ∈ records.map (fun b => b.id)) ∧
    (∀ x ∈ st.cache.map (fun b => b.id), x ∉ records.map (fun b => b.id) →
      x ∉ st'.cache.map (fun b => b.id)) := by
  have main : ∀ h_ ∈ st'.cache, h_.id ∈ records.map (fun b => b.id) := by
    cases herr : (initLoop env st.uri
        (selectRecords (if true then [] else st.cache) records)).2.2 with
    | some e =>
      rw [load_loop_error env true st records e hf herr] at hl
      obtain ⟨h1, h2⟩ := Prod.mk.inj hl
      subst h1
      intro h_ hmem
      exact absurd hmem (by simp)
    | none =>
      rw [load_success env true st records hf herr] at hl
      obtain ⟨h1, h2⟩ := Prod.mk.inj hl
      subst h1
      intro h_ hmem
      dsimp only at hmem
      have hidmem := List.mem_map_of_mem (fun b => b.id) hmem
      rcases ids_setApps_subset _ _ _ hidmem with hb | ⟨app, happ, hid⟩
      · exact absurd hb (by simp)
      · have htrip : initLoop env st.uri
            (selectRecords (if true then [] else st.cache) records) =
            ((initLoop env st.uri
                (selectRecords (if true then [] else st.cache) records)).1,
              (initLoop env st.uri
                (selectRecords (if true then [] else st.cache) records)).2.1,
              none) := by
          rw [← herr]
        obtain ⟨c, hc, hcr⟩ := initLoop_ok_mem htrip app happ
        obtain ⟨hcrec, -, -⟩ := mem_selectRecords hc
        have hpair : initializeApplication env st.uri c =
            ((initializeApplication env st.uri c).1, .ok app) := by
          rw [← hcr]
        have happid : app.id = c.id :=
          initializeApplication_id_of_ne hpair (hne c hcrec)
        have hid' : h_.id = app.id := hid
        rw [hid', happid]
        exact List.mem_map_of_mem _ hcrec
  refine ⟨main, ?_⟩
  intro x hx hnotin hmem
  rw [List.mem_map] at hmem
  obtain ⟨h_, hh, hid⟩ := hmem
  exact hnotin (hid ▸ main h_ hh)

theorem claim_C6_witness :
    (∀ h_ ∈ ((loadFromConfigurations envW true stTwo).1).cache,
      h_.id ∈ ([⟨"A1", "TOMCAT", "/a", []⟩, ⟨"A2", "TOMCAT", "/b", []⟩] :
        List ConfigApplication).map (fun b => b.id)) ∧
    (∀ x ∈ stTwo.cache.map (fun b => b.id),
      x ∉ ([⟨"A1", "TOMCAT", "/a", []⟩, ⟨"A2", "TOMCAT", "/b", []⟩] :
        List ConfigApplication).map (fun b => b.id) →
      x ∉ ((loadFromConfigurations envW true stTwo).1).cache.map (fun b => b.id)) :=
  claim_C6 envW stTwo (loadFromConfigurations envW true stTwo).1
    [⟨"A1", "TOMCAT", "/a", []⟩, ⟨"A2", "TOMCAT", "/b", []⟩]
    (loadFromConfigurations envW true stTwo).2 rfl (by decide) rfl

/-- C2: calling loadFromConfigurations(false) twice, with no external change
    to the persisted state between the calls, leaves the cache after the
    second call identical to the cache after the first, with no duplicate
    ids, and with no init invocation during the second call on any id cached
    by the first call.  The data-model store invariant (distinct, non-empty
    record ids) and a duplicate-free initial cache are assumed. -/
theorem claim_C2 (env : Env) (st0 : State) (records : List ConfigApplication)
    (hf : st0.file = .ok records)
    (hnd : (records.map (fun b => b.id)).Nodup)
    (hne : ∀ b ∈ records, b.id ≠ "")
    (hcache : (st0.cache.map (fun b => b.id)).Nodup) :
    ((loadFromConfigurations env false
        ((loadFromConfigurations env false st0).1)).1).cache =
      ((loadFromConfigurations env false st0).1).cache ∧
    ((((loadFromConfigurations env false
        ((loadFromConfigurations env false st0).1)).1).cache).map
        (fun b => b.id)).Nodup ∧
    (∀ x ∈ (((loadFromConfigurations env false
        ((loadFromConfigurations env false st0).1)).1).initCalls).drop
        (((loadFromConfigurations env false st0).1).initCalls).length,
      x ∉ (((loadFromConfigurations env false st0).1).cache).map (fun b => b.id)) := by
  set st1 := (loadFromConfigurations env false st0).1 with hst1
  cases herr1 : (initLoop env st0.uri
      (selectRecords (if false then [] else st0.cache) records)).2.2 with
  | some e =>
    have hl1 := load_loop_error env false st0 records e hf herr1
    have hc1 : st1.cache = st0.cache := by
      rw [hst1, hl1]
      exact rfl
    have huri1 : st1.uri = st0.uri := by
      rw [hst1, hl1]
    have hfile1 : st1.file = .ok (fileAfterPrune records) := by
      rw [hst1, hl1]
    have hic1 : st1.initCalls = st0.initCalls ++ (initLoop env st0.uri
        (selectRecords st0.cache records)).2.1 := by
      rw [hst1, hl1]
      exact rfl
    have hsel2 : selectRecords st1.cache (fileAfterPrune records) =
        selectRecords st0.cache records := by
      rw [hc1, fileAfterPrune_eq_kept records hnd, select_kept]
    have herr2 : (initLoop env st1.uri
        (selectRecords (if false then [] else st1.cache)
          (fileAfterPrune records))).2.2 = some e := by
      show (initLoop env st1.uri
        (selectRecords st1.cache (fileAfterPrune records))).2.2 = some e
      rw [huri1, hsel2]
      exact herr1
    have hl2 := load_loop_error env false st1 (fileAfterPrune records) e hfile1 herr2
    have hc2 : ((loadFromConfigurations env false st1).1).cache = st1.cache := by
      rw [hl2]
      exact rfl
    have hic2 : ((loadFromConfigurations env false st1).1).initCalls =
        st1.initCalls ++ (initLoop env st1.uri
          (selectRecords st1.cache (fileAfterPrune records))).2.1 := by
      rw [hl2]
      exact rfl
    refine ⟨hc2, ?_, ?_⟩
    · rw [hc2, hc1]
      exact hcache
    · intro x hx
      rw [hic2, List.drop_left] at hx
      rw [huri1, hsel2] at hx
      have htrip : initLoop env st0.uri (selectRecords st0.cache records) =
          ((initLoop env st0.uri (selectRecords st0.cache records)).1,
            (initLoop env st0.uri (selectRecords st0.cache records)).2.1,
            (initLoop env st0.uri (selectRecords st0.cache records)).2.2) := rfl
      obtain ⟨c, hc, hxid⟩ := initLoop_tr_mem htrip x hx
      obtain ⟨hcrec, -, hcnot⟩ := mem_selectRecords hc
      have hxc : x = c.id := by
        rw [hxid]
        simp [resolvedId, hne c hcrec]
      rw [hc1, hxc]
      exact hcnot
  | none =>
    have hl1 := load_success env false st0 records hf herr1
    have hc1 : st1.cache = setAppsToContainer (initLoop env st0.uri
        (selectRecords st0.cache records)).1 st0.cache := by
      rw [hst1, hl1]
      exact rfl
    have huri1 : st1.uri = st0.uri := by
      rw [hst1, hl1]
    have hfile1 : st1.file = .ok ((initLoop env st0.uri
        (selectRecords st0.cache records)).1.map (fun a => a.config)) := by
      rw [hst1, hl1]
      exact rfl
    have htrip : initLoop env st0.uri (selectRecords st0.cache records) =
        ((initLoop env st0.uri (selectRecords st0.cache records)).1,
          (initLoop env st0.uri (selectRecords st0.cache records)).2.1,
          none) := by
      rw [← herr1]
      exact rfl
    have hsel2 : selectRecords st1.cache ((initLoop env st0.uri
        (selectRecords st0.cache records)).1.map (fun a => a.config)) = [] := by
      unfold selectRecords
      rw [List.filter_eq_nil_iff]
      intro a hak
      obtain ⟨harec, -⟩ := mem_keptRecords hak
      rw [List.mem_map] at harec
      obtain ⟨app, happ, hacfg⟩ := harec
      obtain ⟨c, hc, hcr⟩ := initLoop_ok_mem htrip app happ
      obtain ⟨hcrec, -, -⟩ := mem_selectRecords hc
      have hpair : initializeApplication env st0.uri c =
          ((initializeApplication env st0.uri c).1, .ok app) := by
        rw [← hcr]
      have happid : app.id = c.id :=
        initializeApplication_id_of_ne hpair (hne c hcrec)
      have hcfgid : app.config.id = c.id := (initializeApplication_ok hpair).1
      have haid : a.id = app.id := by
        rw [← hacfg, hcfgid, happid]
      have hmemid : a.id ∈ st1.cache.map (fun b => b.id) := by
        rw [hc1, haid]
        exact mem_setApps_self_id _ st0.cache app happ
      rw [List.mem_map] at hmemid
      obtain ⟨b, hb, hbid⟩ := hmemid
      have hany : (st1.cache.any fun l => l.id == a.id) = true := by
        rw [List.any_eq_true]
        exact ⟨b, hb, by simp [hbid]⟩
      simp [hany]
    have herr2 : (initLoop env st1.uri
        (selectRecords (if false then [] else st1.cache)
          ((initLoop env st0.uri
            (selectRecords st0.cache records)).1.map (fun a => a.config)))).2.2 =
        none := by
      show (initLoop env st1.uri
        (selectRecords st1.cache ((initLoop env st0.uri
          (selectRecords st0.cache records)).1.map (fun a => a.config)))).2.2 = none
      rw [hsel2]
      rfl
    have hl2 := load_success env false st1
      ((initLoop env st0.uri (selectRecords st0.cache records)).1.map (fun a => a.config))
      hfile1 herr2
    have hc2 : ((loadFromConfigurations env false st1).1).cache = st1.cache := by
      rw [hl2]
      show setAppsToContainer (initLoop env st1.uri
        (selectRecords st1.cache ((initLoop env st0.uri
          (selectRecords st0.cache records)).1.map (fun a => a.config)))).1
        st1.cache = st1.cache
      rw [hsel2]
      rfl
    have hic2 : ((loadFromConfigurations env false st1).1).initCalls =
        st1.initCalls ++ (initLoop env st1.uri
          (selectRecords st1.cache ((initLoop env st0.uri
            (selectRecords st0.cache records)).1.map (fun a => a.config)))).2.1 := by
      rw [hl2]
      exact rfl
    refine ⟨hc2, ?_, ?_⟩
    · rw [hc2, hc1]
      exact nodup_setApps _ _ hcache
    · intro x hx
      rw [hic2, List.drop_left] at hx
      rw [hsel2] at hx
      cases hx

theorem claim_C2_witness :
    ((loadFromConfigurations envW false
        ((loadFromConfigurations envW false stTwo).1)).1).cache =
      ((loadFromConfigurations envW false stTwo).1).cache ∧
    ((((loadFromConfigurations envW false
        ((loadFromConfigurations envW false stTwo).1)).1).cache).map
        (fun b => b.id)).Nodup ∧
    (∀ x ∈ (((loadFromConfigurations envW false
        ((loadFromConfigurations envW false stTwo).1)).1).initCalls).drop
        (((loadFromConfigurations envW false stTwo).1).initCalls).length,
      x ∉ (((loadFromConfigurations envW false stTwo).1).cache).map (fun b => b.id)) :=
  claim_C2 envW stTwo [⟨"A1", "TOMCAT", "/a", []⟩, ⟨"A2", "TOMCAT", "/b", []⟩]
    rfl (by decide) (by decide) (by decide)

end JustStartServer
